import Mathlib

/-!
Verification development for the trade-performance aggregator.

Shallow embedding of the core of the repository:

* the multi-algorithm trade aggregation route (`src/unnamed/part_003`,
  the `GET` handler of the trades API): capital blending, per-dataset
  scaling, chronological merge, equity-curve construction, and the
  statistics helpers (`calculateRecentMetrics`, `calculateDrawdownStats`);
* the cohort re-basing hook (`useCohortData`), of which the repository
  holds two iterations: the filter-based one (`src/unnamed/part_015`)
  and the nested map-based one (`src/src/hooks/useCohortData.ts`);
* the audit text parser (`parseAuditedTradeData`, `src/unnamed/part_017`).

Modelling conventions:

* JavaScript numbers are modelled as `ℚ` (the claims under study are
  algebraic, none depends on binary floating-point rounding).
* Timestamps (`new Date(x).getTime()`) are modelled as `ℤ` milliseconds.
* `Array.prototype.sort` with a numeric key comparator is stable
  (ECMAScript 2019); it is modelled by `List.insertionSort` with the
  non-strict key order, which is stable and sorts by the same key.
* A JavaScript computation that can throw a `TypeError` (reading a
  property of `undefined`) is modelled with `Option`, `none` being the
  thrown state.
* File/CSV loading and OCR are external collaborators (spec §1); dataset
  contents are therefore a function parameter `data : String → List RawTrade`.
-/

namespace TradePerf

/-- One CSV row of a dataset, after the numeric coercion performed by the
route.  Only the fields the aggregation logic reads are modelled; the
remaining CSV columns pass through the route untouched and are inert for
every claim. -/
structure RawTrade where
  entryDate : ℤ
  exitDate : ℤ
  pnl : ℚ
  mfe : ℚ
  mae : ℚ
deriving DecidableEq

/-- An `AlgorithmSelection`: the client-sent `{dataset, units}` pair. -/
structure Algo where
  dataset : String
  units : ℚ
deriving DecidableEq

/-- A processed (scaled) trade as produced inside the route's per-dataset
loop.  Fields mirror the object literal of `part_003` lines 78-89 (the
unscaled pass-through CSV columns are omitted as inert). -/
structure ProcTrade where
  entryDate : ℤ
  exitDate : ℤ
  pnl : ℚ
  mfe : ℚ
  mae : ℚ
  equity : ℚ
  algorithm : String
  units : ℚ
  baseCapital : ℚ
deriving DecidableEq

/-- One point of the combined equity curve (`part_003` lines 111-116).
`drawdown` stores `-drawdownPercent`, exactly as the source does. -/
structure CurvePoint where
  date : ℤ
  equity : ℚ
  pnl : ℚ
  drawdown : ℚ
deriving DecidableEq

/-- The `CAPITAL_REQUIREMENTS` table (`part_003` lines 6-11); the route
reads it with `|| 0`, so unknown datasets contribute `0`. -/
def capitalRequirements (ds : String) : ℚ :=
  if ds = "nq_trades.csv" then 100000
  else if ds = "mnq_trades.csv" then 25000
  else if ds = "es_trades.csv" then 100000
  else if ds = "mes_trades.csv" then 10000
  else 0

/-- `startDate` filter (`part_003` lines 62-64): with a start date only
trades whose `Entry_Date` is at or after it survive; without one the
list is untouched. -/
def filterByStart (startDate : Option ℤ) (ts : List RawTrade) : List RawTrade :=
  match startDate with
  | none => ts
  | some d => ts.filter (fun t => d ≤ t.entryDate)

/-- Total units for a dataset (`part_003` lines 67-69): the sum of
`units` over all selections of the request that reference it. -/
def totalUnitsFor (algos : List Algo) (ds : String) : ℚ :=
  ((algos.filter (fun a => a.dataset == ds)).map (fun a => a.units)).sum

/-- The per-dataset scaling map (`part_003` lines 72-90): scale `PnL`,
`Max_Favorable_Excursion`, `Max_Adverse_Excursion` by the dataset's total
units, threading the running per-dataset `equity` accumulator. -/
def scaleTradesGo (tu baseCap : ℚ) (alg : String) : ℚ → List RawTrade → List ProcTrade
  | _, [] => []
  | equity, t :: ts =>
      let scaledPnL := t.pnl * tu
      let equity' := equity + scaledPnL
      { entryDate := t.entryDate, exitDate := t.exitDate,
        pnl := scaledPnL, mfe := t.mfe * tu, mae := t.mae * tu,
        equity := equity', algorithm := alg, units := tu,
        baseCapital := baseCap * tu } :: scaleTradesGo tu baseCap alg equity' ts

/-- The main selection loop of the route (`part_003` lines 33-94):
`full` is the complete `algorithms` list (the closure used to compute
`totalUnits`), `seen` the `processedDatasets` set, `acc` the
`combinedTrades` accumulator.  A dataset is processed only on its first
occurrence. -/
def processLoop (caps : String → ℚ) (data : String → List RawTrade)
    (startDate : Option ℤ) (full : List Algo) :
    List Algo → List String → List ProcTrade → List ProcTrade
  | [], _, acc => acc
  | a :: rest, seen, acc =>
      if seen.contains a.dataset then
        processLoop caps data startDate full rest seen acc
      else
        let baseCap := caps a.dataset
        let tu := totalUnitsFor full a.dataset
        let block := scaleTradesGo tu baseCap a.dataset (baseCap * a.units)
          (filterByStart startDate (data a.dataset))
        processLoop caps data startDate full rest (a.dataset :: seen) (acc ++ block)

/-- `combinedTrades` right after the selection loop, before sorting. -/
def combinedTradesOf (caps : String → ℚ) (data : String → List RawTrade)
    (startDate : Option ℤ) (algos : List Algo) : List ProcTrade :=
  processLoop caps data startDate algos algos [] []

/-- `totalInitialCapital` (`part_003` lines 34-36): accumulated per
selection (datasets referenced twice contribute capital twice). -/
def totalInitialCapital (caps : String → ℚ) (algos : List Algo) : ℚ :=
  (algos.map (fun a => caps a.dataset * a.units)).sum

/-- Order used by `combinedTrades.sort` (`part_003` line 97): ascending
`Entry_Date`. -/
def entryLe (a b : ProcTrade) : Prop := a.entryDate ≤ b.entryDate

instance : DecidableRel entryLe := fun a b => inferInstanceAs (Decidable (a.entryDate ≤ b.entryDate))

instance : IsTotal ProcTrade entryLe := ⟨fun a b => le_total a.entryDate b.entryDate⟩

instance : IsTrans ProcTrade entryLe := ⟨fun _ _ _ h h' => le_trans h h'⟩

/-- `combinedTrades.sort((a, b) => entryTime a - entryTime b)`: a stable
sort by ascending entry time. -/
def sortByEntry (ts : List ProcTrade) : List ProcTrade :=
  List.insertionSort entryLe ts

/-- The equity-curve walk (`part_003` lines 100-117): thread `equity`
and `peakEquity`, emit one point per trade stamped with the trade's
`Exit_Date`, storing `-drawdownPercent`. -/
def buildCurveGo : ℚ → ℚ → List ProcTrade → List CurvePoint
  | _, _, [] => []
  | equity, peak, t :: ts =>
      let equity' := equity + t.pnl
      let peak' := max peak equity'
      let ddPct := if equity' < peak' then (peak' - equity') / peak' * 100 else 0
      { date := t.exitDate, equity := equity', pnl := t.pnl,
        drawdown := -ddPct } :: buildCurveGo equity' peak' ts

/-- The combined equity curve: `equity` and `peakEquity` both seeded at
the initial capital. -/
def buildCurve (init : ℚ) (ts : List ProcTrade) : List CurvePoint :=
  buildCurveGo init init ts

/-- Equity at each point unfolds to the initial capital plus the prefix
sum of scaled pnl. -/
theorem buildCurveGo_equity (ts : List ProcTrade) :
    ∀ (eq peak : ℚ) (i : ℕ) (hi : i < (buildCurveGo eq peak ts).length),
      ((buildCurveGo eq peak ts).get ⟨i, hi⟩).equity
        = eq + (((ts.take (i + 1)).map (fun t => t.pnl)).sum) := by
  induction ts with
  | nil => intro eq peak i hi; simp [buildCurveGo] at hi
  | cons t ts ih =>
      intro eq peak i hi
      cases i with
      | zero => simp [buildCurveGo]
      | succ j =>
          have hj : j < (buildCurveGo (eq + t.pnl) (max peak (eq + t.pnl)) ts).length := by
            simpa [buildCurveGo] using hi
          have := ih (eq + t.pnl) (max peak (eq + t.pnl)) j hj
          simpa [buildCurveGo, List.take_succ_cons, add_assoc] using this

theorem buildCurveGo_length (ts : List ProcTrade) :
    ∀ (eq peak : ℚ), (buildCurveGo eq peak ts).length = ts.length := by
  induction ts with
  | nil => intro eq peak; simp [buildCurveGo]
  | cons t ts ih => intro eq peak; simp [buildCurveGo, ih]

/-- C2: For every trade set processed into an equity curve, the final
equity equals `initialCapital` plus the sum of all scaled pnl values
(equivalently, the sum of scaled pnl equals `finalEquity - initialCapital`);
each point's equity is `initialCapital` plus the prefix sum of scaled pnl,
i.e. equity is seeded at `initialCapital` and incremented by each trade's
scaled pnl in sequence. -/
theorem C2_equity_sum (init : ℚ) (ts : List ProcTrade) (p : CurvePoint)
    (hlast : (buildCurve init ts).getLast? = some p) :
    p.equity = init + ((ts.map (fun t => t.pnl)).sum)
      ∧ (ts.map (fun t => t.pnl)).sum = p.equity - init
      ∧ ∀ (i : ℕ) (hi : i < (buildCurve init ts).length),
          ((buildCurve init ts).get ⟨i, hi⟩).equity
            = init + (((ts.take (i + 1)).map (fun t => t.pnl)).sum) := by
  have hpoint : ∀ (i : ℕ) (hi : i < (buildCurve init ts).length),
      ((buildCurve init ts).get ⟨i, hi⟩).equity
        = init + (((ts.take (i + 1)).map (fun t => t.pnl)).sum) :=
    fun i hi => buildCurveGo_equity ts init init i hi
  have hne : buildCurve init ts ≠ [] := by
    intro h
    rw [h] at hlast
    simp at hlast
  have hlen : 0 < (buildCurve init ts).length := List.length_pos.mpr hne
  have hlen' : (buildCurve init ts).length = ts.length := buildCurveGo_length ts init init
  have hidx : (buildCurve init ts).length - 1 < (buildCurve init ts).length := by
    omega
  have hgetlast : (buildCurve init ts).getLast? =
      some ((buildCurve init ts).get ⟨(buildCurve init ts).length - 1, hidx⟩) := by
    rw [List.getLast?_eq_getLast _ hne, List.getLast_eq_get]
  rw [hgetlast] at hlast
  have hp : p = (buildCurve init ts).get ⟨(buildCurve init ts).length - 1, hidx⟩ :=
    (Option.some_inj.mp hlast).symm
  have htake : ts.take ((buildCurve init ts).length - 1 + 1) = ts := by
    apply List.take_of_length_le
    omega
  have hfinal : p.equity = init + ((ts.map (fun t => t.pnl)).sum) := by
    rw [hp, hpoint _ hidx, htake]
  exact ⟨hfinal, by rw [hfinal]; ring, hpoint⟩

/-- Sample trade used in several witnesses. -/
def sampleTrade (entry exit : ℤ) (pnl : ℚ) : ProcTrade :=
  { entryDate := entry, exitDate := exit, pnl := pnl, mfe := pnl, mae := -pnl,
    equity := 0, algorithm := "nq_trades.csv", units := 1, baseCapital := 100000 }

/-- Witness for C2 at a concrete input: `initialCapital = 100000`,
scaled pnls `[500, -200, 300]`, final equity `100600`. -/
theorem C2_equity_sum_witness :
    (buildCurve 100000 [sampleTrade 0 1 500, sampleTrade 2 3 (-200), sampleTrade 4 5 300]).getLast?
        = some { date := 5, equity := 100600, pnl := 300, drawdown := 0 }
      ∧ (100600 : ℚ)
          = 100000 + (([sampleTrade 0 1 500, sampleTrade 2 3 (-200), sampleTrade 4 5 300].map
              (fun t => t.pnl)).sum) := by
  have h := C2_equity_sum 100000
    [sampleTrade 0 1 500, sampleTrade 2 3 (-200), sampleTrade 4 5 300]
    { date := 5, equity := 100600, pnl := 300, drawdown := 0 }
    (by norm_num [buildCurve, buildCurveGo, sampleTrade])
  exact ⟨by norm_num [buildCurve, buildCurveGo, sampleTrade], by simpa using h.1⟩

/-- Dummy curve point used as an out-of-range default in closed statements. -/
def dummyPoint : CurvePoint := { date := 0, equity := 0, pnl := 0, drawdown := 0 }

/-- The running peak as the walk maintains it: `peakEquity` is seeded at
the initial capital and raised to every equity seen so far. -/
def runPeak (peak : ℚ) (l : List ℚ) : ℚ := l.foldl max peak

theorem runPeak_cons (peak x : ℚ) (l : List ℚ) :
    runPeak peak (x :: l) = runPeak (max peak x) l := rfl

set_option maxRecDepth 4000 in
/-- The stored drawdown of point `i` is `0` exactly when its equity
reaches `max (peakSeed, equity[0..i])`, and is strictly negative
otherwise (the route stores `-drawdownPercent`). -/
theorem buildCurveGo_drawdown (ts : List ProcTrade) :
    ∀ (eq peak : ℚ), 0 < peak →
      ∀ (i : ℕ) (hi : i < (buildCurveGo eq peak ts).length),
        (((buildCurveGo eq peak ts).get ⟨i, hi⟩).drawdown = 0
            ↔ ((buildCurveGo eq peak ts).get ⟨i, hi⟩).equity
                = runPeak peak (((buildCurveGo eq peak ts).take (i + 1)).map (fun c => c.equity)))
          ∧ (((buildCurveGo eq peak ts).get ⟨i, hi⟩).equity
                ≠ runPeak peak (((buildCurveGo eq peak ts).take (i + 1)).map (fun c => c.equity))
              → ((buildCurveGo eq peak ts).get ⟨i, hi⟩).drawdown < 0) := by
  induction ts with
  | nil => intro eq peak hpk i hi; simp [buildCurveGo] at hi
  | cons t ts ih =>
      intro eq peak hpk i hi
      cases i with
      | zero =>
          have hle : eq + t.pnl ≤ max peak (eq + t.pnl) := le_max_right _ _
          have hpk' : (0 : ℚ) < max peak (eq + t.pnl) := lt_of_lt_of_le hpk (le_max_left _ _)
          show (-(if eq + t.pnl < max peak (eq + t.pnl)
                  then (max peak (eq + t.pnl) - (eq + t.pnl)) / max peak (eq + t.pnl) * 100
                  else 0) = 0
              ↔ eq + t.pnl = max peak (eq + t.pnl))
            ∧ (eq + t.pnl ≠ max peak (eq + t.pnl)
              → -(if eq + t.pnl < max peak (eq + t.pnl)
                  then (max peak (eq + t.pnl) - (eq + t.pnl)) / max peak (eq + t.pnl) * 100
                  else 0) < 0)
          by_cases hlt : eq + t.pnl < max peak (eq + t.pnl)
          · have hpos : 0 < (max peak (eq + t.pnl) - (eq + t.pnl)) / max peak (eq + t.pnl) * 100 := by
              apply mul_pos
              · apply div_pos
                · linarith
                · exact hpk'
              · norm_num
            rw [if_pos hlt]
            constructor
            · constructor
              · intro h0
                exfalso
                linarith
              · intro hmax
                exfalso
                exact absurd hmax (ne_of_lt hlt)
            · intro _
              linarith
          · have hmax : eq + t.pnl = max peak (eq + t.pnl) := le_antisymm hle (not_lt.mp hlt)
            rw [if_neg hlt]
            constructor
            · constructor
              · intro _
                exact hmax
              · intro _
                norm_num
            · intro hne
              exact absurd hmax hne
      | succ j =>
          have hj : j < (buildCurveGo (eq + t.pnl) (max peak (eq + t.pnl)) ts).length := by
            simpa [buildCurveGo] using hi
          have hpk' : (0 : ℚ) < max peak (eq + t.pnl) := lt_of_lt_of_le hpk (le_max_left _ _)
          exact ih (eq + t.pnl) (max peak (eq + t.pnl)) hpk' j hj

/-- C4 (amended): in every equity curve produced by the builder with a
positive initial capital, the stored drawdown of point `i` is `0` exactly
when `equity[i]` equals `max(initialCapital, equity[0..i])` (the peak is
seeded at the initial capital), and is strictly NEGATIVE otherwise: the
route stores the negated drawdown percentage. -/
theorem C4_drawdown_invariant (init : ℚ) (ts : List ProcTrade) (hinit : 0 < init)
    (i : ℕ) (hi : i < (buildCurve init ts).length) :
    (((buildCurve init ts).get ⟨i, hi⟩).drawdown = 0
        ↔ ((buildCurve init ts).get ⟨i, hi⟩).equity
            = runPeak init (((buildCurve init ts).take (i + 1)).map (fun c => c.equity)))
      ∧ (((buildCurve init ts).get ⟨i, hi⟩).equity
            ≠ runPeak init (((buildCurve init ts).take (i + 1)).map (fun c => c.equity))
          → ((buildCurve init ts).get ⟨i, hi⟩).drawdown < 0) :=
  buildCurveGo_drawdown ts init init hinit i hi

/-- The claim's notion of running maximum: the maximum of the stored
equities `equity[0..i]` alone (the initial capital is not consulted). -/
def maxEquityTo (curve : List CurvePoint) (i : ℕ) : ℚ :=
  match (curve.take (i + 1)).map (fun c => c.equity) with
  | [] => 0
  | x :: xs => xs.foldl max x

/-- C4 as stated is false: with `initialCapital = 100000` and one losing
trade of `-200`, the single curve point has `equity = 99800`, which IS
`max(equity[0..0])`, yet its stored drawdown is `-1/5`, not `0` (the peak
is seeded at the initial capital, and the sign is negative). -/
theorem C4_counterexample :
    ¬ (∀ (init : ℚ) (ts : List ProcTrade) (i : ℕ) (hi : i < (buildCurve init ts).length),
        (((buildCurve init ts).get ⟨i, hi⟩).drawdown = 0
            ↔ ((buildCurve init ts).get ⟨i, hi⟩).equity = maxEquityTo (buildCurve init ts) i)
          ∧ (((buildCurve init ts).get ⟨i, hi⟩).equity ≠ maxEquityTo (buildCurve init ts) i
              → 0 < ((buildCurve init ts).get ⟨i, hi⟩).drawdown)) := by
  intro h
  have hlen : 0 < (buildCurve 100000 [sampleTrade 0 1 (-200)]).length := by
    norm_num [buildCurve, buildCurveGo]
  have h0 := (h 100000 [sampleTrade 0 1 (-200)] 0 hlen).1
  have hmax : ((buildCurve 100000 [sampleTrade 0 1 (-200)]).get ⟨0, hlen⟩).equity
      = maxEquityTo (buildCurve 100000 [sampleTrade 0 1 (-200)]) 0 := by
    norm_num [buildCurve, buildCurveGo, sampleTrade, maxEquityTo]
  have hdd := h0.mpr hmax
  rw [show ((buildCurve 100000 [sampleTrade 0 1 (-200)]).get ⟨0, hlen⟩).drawdown = -(1/5 : ℚ) by
    norm_num [buildCurve, buildCurveGo, sampleTrade]] at hdd
  norm_num at hdd

/-- Witness for C4 (amended) at a concrete input: the single losing
trade leaves equity below the seeded peak, so the stored drawdown is
strictly negative. -/
theorem C4_drawdown_invariant_witness :
    ((buildCurve 100000 [sampleTrade 0 1 (-200)]).getD 0 dummyPoint).drawdown < 0 := by
  have hlen : 0 < (buildCurve 100000 [sampleTrade 0 1 (-200)]).length := by
    norm_num [buildCurve, buildCurveGo]
  have h := (C4_drawdown_invariant 100000 [sampleTrade 0 1 (-200)] (by norm_num) 0 hlen).2
  have hne : ((buildCurve 100000 [sampleTrade 0 1 (-200)]).get ⟨0, hlen⟩).equity
      ≠ runPeak 100000
          (((buildCurve 100000 [sampleTrade 0 1 (-200)]).take (0 + 1)).map (fun c => c.equity)) := by
    norm_num [buildCurve, buildCurveGo, sampleTrade, runPeak]
  have hdd := h hne
  have heq : (buildCurve 100000 [sampleTrade 0 1 (-200)]).getD 0 dummyPoint
      = (buildCurve 100000 [sampleTrade 0 1 (-200)]).get ⟨0, hlen⟩ := by
    norm_num [buildCurve, buildCurveGo, sampleTrade]
  rw [heq]
  exact hdd

/-- The curve stamps each point with the trade's exit time, in the order
of the (entry-sorted) trade list. -/
theorem buildCurveGo_dates (ts : List ProcTrade) :
    ∀ (eq peak : ℚ), (buildCurveGo eq peak ts).map (fun c => c.date)
      = ts.map (fun t => t.exitDate) := by
  induction ts with
  | nil => intro eq peak; simp [buildCurveGo]
  | cons t ts ih => intro eq peak; simp [buildCurveGo, ih]

/-- C5 (amended): the merged trade list is sorted by ascending
`entryTime` (stable sort), so the emitted curve points follow the trades'
entry order; the point timestamps — which are the trades' `exitTime`s —
are nondecreasing exactly when the entry-sorted trade sequence has
nondecreasing exit times (e.g. non-overlapping trades).  For overlapping
trades the timestamps can decrease (see the counterexample). -/
theorem C5_curve_order (init : ℚ) (ts : List ProcTrade) :
    List.Pairwise entryLe (sortByEntry ts)
      ∧ (List.Pairwise (fun a b : ProcTrade => a.exitDate ≤ b.exitDate) (sortByEntry ts)
          → List.Pairwise (fun p q : CurvePoint => p.date ≤ q.date)
              (buildCurve init (sortByEntry ts))) := by
  constructor
  · exact List.sorted_insertionSort entryLe ts
  · intro hexit
    have hdates : (buildCurve init (sortByEntry ts)).map (fun c => c.date)
        = (sortByEntry ts).map (fun t => t.exitDate) := buildCurveGo_dates _ init init
    have hmap : ((sortByEntry ts).map (fun t => t.exitDate)).Pairwise (fun a b : ℤ => a ≤ b) :=
      List.pairwise_map.mpr hexit
    rw [← hdates] at hmap
    exact List.pairwise_map.mp hmap

/-- C5 as stated is false: two overlapping trades (entries 0 and 1,
exits 10 and 2) are merged in entry order, so the curve timestamps are
`[10, 2]` — not chronologically sorted. -/
theorem C5_counterexample :
    ¬ List.Pairwise (fun p q : CurvePoint => p.date ≤ q.date)
        (buildCurve 100000 (sortByEntry [sampleTrade 0 10 5, sampleTrade 1 2 5])) := by
  intro h
  have hsort : sortByEntry [sampleTrade 0 10 5, sampleTrade 1 2 5]
      = [sampleTrade 0 10 5, sampleTrade 1 2 5] := by
    norm_num [sortByEntry, List.insertionSort, List.orderedInsert, entryLe, sampleTrade]
  rw [hsort] at h
  have hdates : (buildCurve 100000 [sampleTrade 0 10 5, sampleTrade 1 2 5]).map (fun c => c.date)
      = [10, 2] := by
    simp only [buildCurve]
    rw [buildCurveGo_dates]
    norm_num [sampleTrade]
  have hm : ((buildCurve 100000 [sampleTrade 0 10 5, sampleTrade 1 2 5]).map
      (fun c => c.date)).Pairwise (fun a b : ℤ => a ≤ b) :=
    List.pairwise_map.mpr h
  rw [hdates] at hm
  norm_num [List.pairwise_cons] at hm

/-- Witness for C5 (amended) at a concrete input with non-overlapping
trades: entry order and exit order agree, so the curve timestamps are
nondecreasing. -/
theorem C5_curve_order_witness :
    List.Pairwise entryLe (sortByEntry [sampleTrade 0 1 5, sampleTrade 2 3 (-2)])
      ∧ List.Pairwise (fun p q : CurvePoint => p.date ≤ q.date)
          (buildCurve 100000 (sortByEntry [sampleTrade 0 1 5, sampleTrade 2 3 (-2)])) := by
  refine ⟨(C5_curve_order 100000 [sampleTrade 0 1 5, sampleTrade 2 3 (-2)]).1, ?_⟩
  apply (C5_curve_order 100000 [sampleTrade 0 1 5, sampleTrade 2 3 (-2)]).2
  norm_num [sortByEntry, List.insertionSort, List.orderedInsert, entryLe, sampleTrade]

/-! ### C1: blended scaling of shared datasets -/

theorem scaleTradesGo_mem_algorithm (tu bc : ℚ) (alg : String) :
    ∀ (e : ℚ) (ts : List RawTrade) (t : ProcTrade),
      t ∈ scaleTradesGo tu bc alg e ts → t.algorithm = alg := by
  intro e ts
  induction ts generalizing e with
  | nil => intro t ht; simp [scaleTradesGo] at ht
  | cons x xs ih =>
      intro t ht
      simp only [scaleTradesGo, List.mem_cons] at ht
      rcases ht with h | h
      · rw [h]
      · exact ih _ t h

theorem scaleTradesGo_mem_units (tu bc : ℚ) (alg : String) :
    ∀ (e : ℚ) (ts : List RawTrade) (t : ProcTrade),
      t ∈ scaleTradesGo tu bc alg e ts → t.units = tu := by
  intro e ts
  induction ts generalizing e with
  | nil => intro t ht; simp [scaleTradesGo] at ht
  | cons x xs ih =>
      intro t ht
      simp only [scaleTradesGo, List.mem_cons] at ht
      rcases ht with h | h
      · rw [h]
      · exact ih _ t h

theorem scaleTradesGo_proj (tu bc : ℚ) (alg : String) :
    ∀ (e : ℚ) (ts : List RawTrade),
      (scaleTradesGo tu bc alg e ts).map (fun t => (t.pnl, t.mfe, t.mae))
        = ts.map (fun t => (t.pnl * tu, t.mfe * tu, t.mae * tu)) := by
  intro e ts
  induction ts generalizing e with
  | nil => simp [scaleTradesGo]
  | cons x xs ih => simp [scaleTradesGo, ih]

/-- Predicate selecting the trades tagged with dataset `D`. -/
def tagOf (D : String) (t : ProcTrade) : Bool := t.algorithm == D

theorem filter_tag_scaleTradesGo_self (tu bc : ℚ) (D : String) (e : ℚ) (ts : List RawTrade) :
    (scaleTradesGo tu bc D e ts).filter (tagOf D) = scaleTradesGo tu bc D e ts := by
  apply List.filter_eq_self.mpr
  intro t ht
  have := scaleTradesGo_mem_algorithm tu bc D e ts t ht
  simp [tagOf, this]

theorem filter_tag_scaleTradesGo_ne (tu bc : ℚ) (alg D : String) (hne : alg ≠ D)
    (e : ℚ) (ts : List RawTrade) :
    (scaleTradesGo tu bc alg e ts).filter (tagOf D) = [] := by
  apply List.filter_eq_nil.mpr
  intro t ht
  have := scaleTradesGo_mem_algorithm tu bc alg e ts t ht
  simp [tagOf, this, hne]

theorem processLoop_filter_seen (caps : String → ℚ) (data : String → List RawTrade)
    (sd : Option ℤ) (full : List Algo) (D : String) :
    ∀ (rest : List Algo) (seen : List String) (acc : List ProcTrade), D ∈ seen →
      (processLoop caps data sd full rest seen acc).filter (tagOf D) = acc.filter (tagOf D) := by
  intro rest
  induction rest with
  | nil => intro seen acc _; rfl
  | cons a rest ih =>
      intro seen acc hD
      by_cases hc : seen.contains a.dataset = true
      · rw [processLoop, if_pos hc]
        exact ih seen acc hD
      · have hnd : a.dataset ≠ D := by
          intro h
          rw [h] at hc
          exact hc (List.elem_eq_true_of_mem hD)
        rw [processLoop, if_neg hc]
        rw [ih (a.dataset :: seen) _ (List.mem_cons_of_mem _ hD)]
        rw [List.filter_append, filter_tag_scaleTradesGo_ne _ _ _ _ hnd, List.append_nil]

theorem processLoop_filter_unseen (caps : String → ℚ) (data : String → List RawTrade)
    (sd : Option ℤ) (full : List Algo) (D : String) :
    ∀ (rest : List Algo) (seen : List String) (acc : List ProcTrade), D ∉ seen →
      (processLoop caps data sd full rest seen acc).filter (tagOf D)
        = acc.filter (tagOf D)
          ++ (match rest.find? (fun a => a.dataset == D) with
              | none => []
              | some a => scaleTradesGo (totalUnitsFor full D) (caps D) D
                  (caps D * a.units) (filterByStart sd (data D))) := by
  intro rest
  induction rest with
  | nil => intro seen acc _; simp [processLoop]
  | cons a rest ih =>
      intro seen acc hD
      by_cases had : a.dataset = D
      · have hc : ¬ seen.contains a.dataset = true := by
          rw [had]
          intro h
          exact hD (List.mem_of_elem_eq_true h)
        have hfind : (a :: rest).find? (fun a => a.dataset == D) = some a := by
          simp [List.find?, had]
        rw [hfind]
        rw [processLoop, if_neg hc]
        rw [processLoop_filter_seen caps data sd full D rest (a.dataset :: seen) _
          (by rw [had]; exact List.mem_cons_self _ _)]
        rw [List.filter_append]
        rw [had, filter_tag_scaleTradesGo_self]
      · have hbeq : (a.dataset == D) = false := beq_eq_false_iff_ne.mpr had
        have hfind : (a :: rest).find? (fun a => a.dataset == D)
            = rest.find? (fun a => a.dataset == D) := by
          simp [List.find?, hbeq]
        rw [hfind]
        by_cases hc : seen.contains a.dataset = true
        · rw [processLoop, if_pos hc]
          exact ih seen acc hD
        · rw [processLoop, if_neg hc]
          have hD2 : D ∉ a.dataset :: seen := by
            intro h
            rcases List.mem_cons.mp h with h | h
            · exact had h.symm
            · exact hD h
          rw [ih (a.dataset :: seen) _ hD2]
          rw [List.filter_append, filter_tag_scaleTradesGo_ne _ _ _ _ had, List.append_nil]

theorem find?_eq_head?_filter {α : Type} (p : α → Bool) :
    ∀ (l : List α), l.find? p = (l.filter p).head? := by
  intro l
  induction l with
  | nil => rfl
  | cons a l ih =>
      by_cases h : p a
      · simp [List.find?, List.filter, h]
      · simp only [List.find?, List.filter, Bool.eq_false_iff.mpr h]
        exact ih

/-- C1: when a selection list references the same `datasetId` twice
(units `u1` and `u2`), the merged output contains each filtered trade of
that dataset exactly once — as a multiset, the `D`-tagged output trades
project onto exactly the raw trades scaled by the blended `u1 + u2` on
`pnl`, `maxFavorableExcursion` and `maxAdverseExcursion` — and every
`D`-tagged output trade carries blended `units = u1 + u2`. -/
theorem C1_blended_scaling (caps : String → ℚ) (data : String → List RawTrade)
    (sd : Option ℤ) (algos : List Algo) (D : String) (u1 u2 : ℚ)
    (hsel : algos.filter (fun a => a.dataset == D) = [⟨D, u1⟩, ⟨D, u2⟩]) :
    List.Perm
        (((sortByEntry (combinedTradesOf caps data sd algos)).filter (tagOf D)).map
          (fun t => (t.pnl, t.mfe, t.mae)))
        ((filterByStart sd (data D)).map
          (fun t => (t.pnl * (u1 + u2), t.mfe * (u1 + u2), t.mae * (u1 + u2))))
      ∧ ∀ t ∈ (sortByEntry (combinedTradesOf caps data sd algos)).filter (tagOf D),
          t.units = u1 + u2 := by
  have hfind : algos.find? (fun a => a.dataset == D) = some ⟨D, u1⟩ := by
    rw [find?_eq_head?_filter, hsel]
    rfl
  have htu : totalUnitsFor algos D = u1 + u2 := by
    unfold totalUnitsFor
    rw [hsel]
    simp
  have hcomb : (combinedTradesOf caps data sd algos).filter (tagOf D)
      = scaleTradesGo (u1 + u2) (caps D) D (caps D * u1) (filterByStart sd (data D)) := by
    unfold combinedTradesOf
    rw [processLoop_filter_unseen caps data sd algos D algos [] [] (by simp), hfind]
    simp [htu]
  have hperm : List.Perm ((sortByEntry (combinedTradesOf caps data sd algos)).filter (tagOf D))
      ((combinedTradesOf caps data sd algos).filter (tagOf D)) :=
    (List.perm_insertionSort entryLe _).filter (tagOf D)
  constructor
  · have := hperm.map (fun t => (t.pnl, t.mfe, t.mae))
    rw [hcomb, scaleTradesGo_proj] at this
    exact this
  · intro t ht
    have ht' : t ∈ (combinedTradesOf caps data sd algos).filter (tagOf D) := hperm.mem_iff.mp ht
    rw [hcomb] at ht'
    exact scaleTradesGo_mem_units _ _ _ _ _ t ht'

/-- Concrete dataset store used by witnesses: `nq_trades.csv` holds one
raw trade with `pnl = 100`, `mfe = 10`, `mae = -5`. -/
def exData : String → List RawTrade := fun s =>
  if s = "nq_trades.csv"
  then [{ entryDate := 0, exitDate := 1, pnl := 100, mfe := 10, mae := -5 }]
  else []

/-- Witness for C1: two selections of `nq_trades.csv` with units 1 and 2
give blended `totalUnits = 3`; the single merged trade has
`pnl = 3 × 100`, and appears once. -/
theorem C1_blended_scaling_witness :
    ([⟨"nq_trades.csv", 1⟩, ⟨"nq_trades.csv", 2⟩] : List Algo).filter
        (fun a => a.dataset == "nq_trades.csv")
      = [⟨"nq_trades.csv", 1⟩, ⟨"nq_trades.csv", 2⟩]
    ∧ (List.Perm
        (((sortByEntry (combinedTradesOf capitalRequirements exData none
            [⟨"nq_trades.csv", 1⟩, ⟨"nq_trades.csv", 2⟩])).filter (tagOf "nq_trades.csv")).map
          (fun t => (t.pnl, t.mfe, t.mae)))
        ((filterByStart none (exData "nq_trades.csv")).map
          (fun t => (t.pnl * (1 + 2), t.mfe * (1 + 2), t.mae * (1 + 2))))
      ∧ ∀ t ∈ (sortByEntry (combinedTradesOf capitalRequirements exData none
            [⟨"nq_trades.csv", 1⟩, ⟨"nq_trades.csv", 2⟩])).filter (tagOf "nq_trades.csv"),
          t.units = 1 + 2) := by
  have hsel : ([⟨"nq_trades.csv", 1⟩, ⟨"nq_trades.csv", 2⟩] : List Algo).filter
      (fun a => a.dataset == "nq_trades.csv")
      = [⟨"nq_trades.csv", 1⟩, ⟨"nq_trades.csv", 2⟩] := by
    simp
  exact ⟨hsel, C1_blended_scaling capitalRequirements exData none
    [⟨"nq_trades.csv", 1⟩, ⟨"nq_trades.csv", 2⟩] "nq_trades.csv" 1 2 hsel⟩

/-! ### C6: profit factor (all-time metric vs 3-month trailing metric) -/

/-- `combinedTrades.filter(t => t.PnL > 0)` (`part_003` line 124). -/
def winningTrades (ts : List ProcTrade) : List ProcTrade :=
  ts.filter (fun t => decide (0 < t.pnl))

/-- `combinedTrades.filter(t => t.PnL < 0)` (`part_003` line 125). -/
def losingTrades (ts : List ProcTrade) : List ProcTrade :=
  ts.filter (fun t => decide (t.pnl < 0))

/-- Sum of winning pnl. -/
def winSum (ts : List ProcTrade) : ℚ := ((winningTrades ts).map (fun t => t.pnl)).sum

/-- Sum of losing pnl (a nonpositive number). -/
def lossSum (ts : List ProcTrade) : ℚ := ((losingTrades ts).map (fun t => t.pnl)).sum

/-- `avgWin` (`part_003` line 126). -/
def avgWin (ts : List ProcTrade) : ℚ :=
  if 0 < (winningTrades ts).length then winSum ts / (winningTrades ts).length else 0

/-- `avgLoss` (`part_003` line 127): the `abs` of the losing sum divided
by the number of losers. -/
def avgLoss (ts : List ProcTrade) : ℚ :=
  if 0 < (losingTrades ts).length then |lossSum ts| / (losingTrades ts).length else 0

/-- The all-time `profitFactor` of the metadata (`part_003` line 148):
`avgLoss === 0 ? 0 : (avgWin * wins) / (avgLoss * losses)`. -/
def profitFactorMeta (ts : List ProcTrade) : ℚ :=
  if avgLoss ts = 0 then 0
  else (avgWin ts * (winningTrades ts).length) / (avgLoss ts * (losingTrades ts).length)

/-- One JavaScript day in milliseconds. -/
def msPerDay : ℤ := 86400000

/-- The trailing window of `calculateRecentMetrics` (`part_003` lines
257-261): trades whose exit is at or after `lastExit - days`. -/
def recentWindow (ts : List ProcTrade) (days : ℤ) : List ProcTrade :=
  match ts.getLast? with
  | none => []
  | some lastT => ts.filter (fun t => decide (lastT.exitDate - days * msPerDay ≤ t.exitDate))

/-- `calculateRecentMetrics` (`part_003` lines 254-275), returning
`(profitFactor, winRate)`.  The empty-input guards mirror lines 255 and
263; the profit factor falls back to the RAW WIN SUM when the loss sum
is zero (line 271). -/
def calculateRecentMetrics (ts : List ProcTrade) (days : ℤ) : ℚ × ℚ :=
  match ts.getLast? with
  | none => (0, 0)
  | some _ =>
      let recent := recentWindow ts days
      if recent.length = 0 then (0, 0)
      else
        let wins := recent.filter (fun t => decide (0 < t.pnl))
        let totalWins := (wins.map (fun t => t.pnl)).sum
        let totalLosses := |((recent.filter (fun t => decide (t.pnl < 0))).map
          (fun t => t.pnl)).sum|
        let pf := if totalLosses = 0 then totalWins else totalWins / totalLosses
        let wr := if recent.length = 0 then (0 : ℚ) else (wins.length : ℚ) / recent.length
        (pf, wr)

theorem sum_nonpos_of_all_neg :
    ∀ (l : List ProcTrade), (∀ t ∈ l, t.pnl < 0) → ((l.map (fun t => t.pnl)).sum ≤ 0) := by
  intro l
  induction l with
  | nil => intro _; simp
  | cons t l ih =>
      intro h
      have ht := h t (List.mem_cons_self _ _)
      have hl := ih (fun x hx => h x (List.mem_cons_of_mem _ hx))
      simp only [List.map_cons, List.sum_cons]
      linarith

theorem lossSum_neg_of_ne_nil (ts : List ProcTrade) (h : losingTrades ts ≠ []) :
    lossSum ts < 0 := by
  have hall : ∀ t ∈ losingTrades ts, t.pnl < 0 := by
    intro t ht
    have := List.of_mem_filter ht
    exact of_decide_eq_true this
  cases hmatch : losingTrades ts with
  | nil => exact absurd hmatch h
  | cons t l =>
      have ht : t.pnl < 0 := hall t (by rw [hmatch]; exact List.mem_cons_self _ _)
      have hl : ((l.map (fun t => t.pnl)).sum ≤ 0) := by
        apply sum_nonpos_of_all_neg
        intro x hx
        exact hall x (by rw [hmatch]; exact List.mem_cons_of_mem _ hx)
      unfold lossSum
      rw [hmatch]
      simp only [List.map_cons, List.sum_cons]
      linarith

theorem avgWin_mul_len (ts : List ProcTrade) :
    avgWin ts * (winningTrades ts).length = winSum ts := by
  unfold avgWin
  by_cases h : 0 < (winningTrades ts).length
  · rw [if_pos h]
    have hne : ((winningTrades ts).length : ℚ) ≠ 0 := by
      exact_mod_cast Nat.pos_iff_ne_zero.mp h
    field_simp
  · rw [if_neg h]
    have h0 : (winningTrades ts).length = 0 := Nat.eq_zero_of_not_pos h
    have hnil : winningTrades ts = [] := List.length_eq_zero.mp h0
    unfold winSum
    rw [hnil]
    simp

/-- C6 (amended): both metrics equal `Σ winning pnl / |Σ losing pnl|`
whenever there is at least one losing trade; when the loss sum is zero
the 3-MONTH metric falls back to the raw winning sum, but the ALL-TIME
metric is `0` (not the raw winning sum). -/
theorem C6_profit_factor (ts : List ProcTrade) (days : ℤ) :
    (lossSum ts = 0 → profitFactorMeta ts = 0)
      ∧ (lossSum ts ≠ 0 → profitFactorMeta ts = winSum ts / |lossSum ts|)
      ∧ (ts ≠ [] → 0 ≤ days →
          (lossSum (recentWindow ts days) = 0
              → (calculateRecentMetrics ts days).1 = winSum (recentWindow ts days))
            ∧ (lossSum (recentWindow ts days) ≠ 0
              → (calculateRecentMetrics ts days).1
                  = winSum (recentWindow ts days) / |lossSum (recentWindow ts days)|)) := by
  refine ⟨?_, ?_, ?_⟩
  · intro h0
    by_cases hnil : losingTrades ts = []
    · unfold profitFactorMeta avgLoss
      rw [if_pos]
      rw [hnil]
      simp
    · exact absurd h0 (ne_of_lt (lossSum_neg_of_ne_nil ts hnil))
  · intro hne
    have hnil : losingTrades ts ≠ [] := by
      intro h
      apply hne
      unfold lossSum
      rw [h]
      simp
    have hlen : 0 < (losingTrades ts).length :=
      List.length_pos.mpr hnil
    have hlenQ : ((losingTrades ts).length : ℚ) ≠ 0 := by
      exact_mod_cast Nat.pos_iff_ne_zero.mp hlen
    have habs : (0 : ℚ) < |lossSum ts| := abs_pos.mpr hne
    have havgLoss : avgLoss ts = |lossSum ts| / (losingTrades ts).length := by
      unfold avgLoss
      rw [if_pos hlen]
    have havgpos : 0 < avgLoss ts := by
      rw [havgLoss]
      apply div_pos habs
      exact_mod_cast hlen
    unfold profitFactorMeta
    rw [if_neg (ne_of_gt havgpos)]
    rw [avgWin_mul_len, havgLoss]
    rw [div_mul_cancel₀ _ hlenQ]
  · intro hts hdays
    obtain ⟨lastT, hlast⟩ := Option.isSome_iff_exists.mp (List.getLast?_isSome.mpr hts)
    have hmem : lastT ∈ ts := by
      have := List.getLast?_eq_getLast ts hts
      rw [this] at hlast
      have : lastT = ts.getLast hts := (Option.some_inj.mp hlast).symm
      rw [this]
      exact List.getLast_mem hts
    have hwin : lastT ∈ recentWindow ts days := by
      unfold recentWindow
      rw [hlast]
      apply List.mem_filter.mpr
      refine ⟨hmem, ?_⟩
      apply decide_eq_true
      have : 0 ≤ days * msPerDay := by
        apply mul_nonneg hdays
        norm_num [msPerDay]
      omega
    have hrne : (recentWindow ts days).length ≠ 0 := by
      intro h
      rw [List.length_eq_zero.mp h] at hwin
      simp at hwin
    have hunfold : calculateRecentMetrics ts days
        = (if |((recentWindow ts days).filter (fun t => decide (t.pnl < 0)) |>.map
              (fun t => t.pnl)).sum| = 0
            then (((recentWindow ts days).filter (fun t => decide (0 < t.pnl))).map
              (fun t => t.pnl)).sum
            else (((recentWindow ts days).filter (fun t => decide (0 < t.pnl))).map
                (fun t => t.pnl)).sum
              / |((recentWindow ts days).filter (fun t => decide (t.pnl < 0)) |>.map
                  (fun t => t.pnl)).sum|,
          if (recentWindow ts days).length = 0 then (0 : ℚ)
          else ((((recentWindow ts days).filter (fun t => decide (0 < t.pnl))).length : ℚ)
            / (recentWindow ts days).length)) := by
      unfold calculateRecentMetrics
      rw [hlast]
      simp only [if_neg hrne]
    have hws : (((recentWindow ts days).filter (fun t => decide (0 < t.pnl))).map
        (fun t => t.pnl)).sum = winSum (recentWindow ts days) := rfl
    have hls : ((recentWindow ts days).filter (fun t => decide (t.pnl < 0)) |>.map
        (fun t => t.pnl)).sum = lossSum (recentWindow ts days) := rfl
    constructor
    · intro h0
      rw [hunfold]
      simp only [hws, hls, h0]
      norm_num
    · intro hne0
      rw [hunfold]
      simp only [hws, hls]
      rw [if_neg (abs_ne_zero.mpr hne0)]

/-- C6 as stated is false for the all-time metric: a single winning
trade (`pnl = 5`, no losers) has `profitFactor = 0` in the metadata,
while the claim demands the raw winning sum `5`. -/
theorem C6_counterexample :
    profitFactorMeta [sampleTrade 0 1 5] = 0
      ∧ winSum [sampleTrade 0 1 5] = 5
      ∧ lossSum [sampleTrade 0 1 5] = 0
      ∧ (0 : ℚ) ≠ 5 := by
  refine ⟨?_, ?_, ?_, by norm_num⟩ <;>
    norm_num [profitFactorMeta, avgLoss, avgWin, winningTrades, losingTrades, winSum,
      lossSum, sampleTrade, List.filter]

/-- Concrete trade list for the C6 witness: one win (+5), one loss (-2). -/
def exC6 : List ProcTrade := [sampleTrade 0 1 5, sampleTrade 2 3 (-2)]

/-- Witness for C6 (amended) at a concrete input: with a losing trade
present both metrics equal `Σ win / |Σ loss|`. -/
theorem C6_profit_factor_witness :
    lossSum exC6 ≠ 0
      ∧ profitFactorMeta exC6 = winSum exC6 / |lossSum exC6|
      ∧ (calculateRecentMetrics exC6 90).1
          = winSum (recentWindow exC6 90) / |lossSum (recentWindow exC6 90)| := by
  have hne : lossSum exC6 ≠ 0 := by
    norm_num [lossSum, losingTrades, exC6, sampleTrade, List.filter]
  have hrecne : lossSum (recentWindow exC6 90) ≠ 0 := by
    norm_num [lossSum, losingTrades, recentWindow, exC6, sampleTrade, List.filter,
      List.getLast?, msPerDay]
  refine ⟨hne, (C6_profit_factor exC6 90).2.1 hne, ?_⟩
  exact ((C6_profit_factor exC6 90).2.2 (by simp [exC6]) (by norm_num)).2 hrecne

/-! ### C7: drawdown-duration statistics (`calculateDrawdownStats`) -/

/-- A completed (or trailing open) drawdown period, as pushed onto
`drawdownPeriods` (`part_003` lines 296, 302-305). -/
structure DDPeriod where
  duration : ℤ
  drawdown : ℚ
deriving DecidableEq

/-- The mutable locals of `calculateDrawdownStats` (`part_003` lines
291-296). -/
structure DDState where
  maxEquity : ℚ
  ddStart : Option ℤ
  currentDrawdown : ℚ
  maxDuration : ℤ
  currentDuration : ℤ
  periods : List DDPeriod
deriving DecidableEq

/-- `Math.ceil((date - start) / (1000*60*60*24))` on millisecond stamps. -/
def ceilDays (diff : ℤ) : ℤ := ⌈(diff : ℚ) / 86400000⌉

/-- One iteration of the `forEach` of `calculateDrawdownStats`
(`part_003` lines 298-318): a new peak closes the current period (if it
recorded any drawdown), a below-peak point opens/extends one, a point
equal to the peak changes nothing. -/
def ddStep (st : DDState) (p : CurvePoint) : DDState :=
  if st.maxEquity < p.equity then
    { maxEquity := p.equity,
      ddStart := none,
      currentDrawdown := 0,
      maxDuration := st.maxDuration,
      currentDuration := 0,
      periods :=
        if st.ddStart.isSome && decide (0 < st.currentDrawdown)
        then st.periods ++ [{ duration := st.currentDuration, drawdown := st.currentDrawdown }]
        else st.periods }
  else if p.equity < st.maxEquity then
    let start := st.ddStart.getD p.date
    let dur := ceilDays (p.date - start)
    { maxEquity := st.maxEquity,
      ddStart := some start,
      currentDrawdown := (st.maxEquity - p.equity) / st.maxEquity * 100,
      maxDuration := max st.maxDuration dur,
      currentDuration := dur,
      periods := st.periods }
  else st

/-- The `forEach` loop over the whole curve. -/
def ddFold (st : DDState) : List CurvePoint → DDState
  | [] => st
  | p :: ps => ddFold (ddStep st p) ps

/-- The locals as initialised on `part_003` lines 291-296 (`maxEquity`
starts at `equityCurve[0].equity`). -/
def initialDDState (e : ℚ) : DDState :=
  { maxEquity := e, ddStart := none, currentDrawdown := 0,
    maxDuration := 0, currentDuration := 0, periods := [] }

/-- The trailing push of the still-open drawdown period (`part_003`
lines 321-326). -/
def finalPeriods (st : DDState) : List DDPeriod :=
  if st.ddStart.isSome && decide (0 < st.currentDrawdown)
  then st.periods ++ [{ duration := st.currentDuration, drawdown := st.currentDrawdown }]
  else st.periods

/-- All drawdown periods recorded for a curve (completed ones plus the
trailing open one). -/
def recordedPeriods (curve : List CurvePoint) : List DDPeriod :=
  match curve with
  | [] => []
  | p :: _ => finalPeriods (ddFold (initialDDState p.equity) curve)

/-- Ascending-duration order used by `drawdownPeriods.sort((a, b) =>
a.duration - b.duration)` (`part_003` line 337). -/
def durLe (a b : DDPeriod) : Prop := a.duration ≤ b.duration

instance : DecidableRel durLe := fun a b => inferInstanceAs (Decidable (a.duration ≤ b.duration))

instance : IsTotal DDPeriod durLe := ⟨fun a b => le_total a.duration b.duration⟩

instance : IsTrans DDPeriod durLe := ⟨fun _ _ _ h h' => le_trans h h'⟩

/-- The stable sort of the recorded periods by ascending duration. -/
def sortPeriods (ps : List DDPeriod) : List DDPeriod :=
  List.insertionSort durLe ps

/-- Default never hit: the median index `⌊n/2⌋` is always in range for a
non-empty period list. -/
def dummyPeriod : DDPeriod := { duration := 0, drawdown := 0 }

/-- The result record of `calculateDrawdownStats` (`part_003` lines
340-346). -/
structure DrawdownStats where
  maxDrawdownDuration : ℤ
  avgDrawdownDuration : ℚ
  medianDrawdownDuration : ℤ
  avgDrawdownPercent : ℚ
  totalDrawdownPeriods : ℕ
deriving DecidableEq

/-- `calculateDrawdownStats` (`part_003` lines 290-347).  On an empty
curve the source reads `equityCurve[0].equity`, throwing a `TypeError`
(modelled as `none`).  The median picks index `Math.floor(n / 2)` of the
duration-ascending sort. -/
def calculateDrawdownStats : List CurvePoint → Option DrawdownStats
  | [] => none
  | p :: rest =>
      let st := ddFold (initialDDState p.equity) (p :: rest)
      let periods := finalPeriods st
      some
        { maxDrawdownDuration := st.maxDuration,
          avgDrawdownDuration :=
            if 0 < periods.length
            then ((periods.map (fun q => (q.duration : ℚ))).sum) / periods.length else 0,
          medianDrawdownDuration :=
            if 0 < periods.length
            then ((sortPeriods periods).getD (periods.length / 2) dummyPeriod).duration else 0,
          avgDrawdownPercent :=
            if 0 < periods.length
            then ((periods.map (fun q => q.drawdown)).sum) / periods.length else 0,
          totalDrawdownPeriods := periods.length }

/-- C7 (amended): for every curve with at least one recorded drawdown
period, `medianDrawdownDuration` is the duration of the element at
0-based index `⌊n/2⌋` of the duration-ascending (stable) sort of the
recorded periods — for an even count this is the UPPER-middle element,
not the lower-middle one. -/
theorem C7_median_drawdown (curve : List CurvePoint) (stats : DrawdownStats)
    (hs : calculateDrawdownStats curve = some stats)
    (hne : recordedPeriods curve ≠ []) :
    List.Pairwise durLe (sortPeriods (recordedPeriods curve))
      ∧ List.Perm (sortPeriods (recordedPeriods curve)) (recordedPeriods curve)
      ∧ stats.medianDrawdownDuration
          = ((sortPeriods (recordedPeriods curve)).getD ((recordedPeriods curve).length / 2)
              dummyPeriod).duration := by
  refine ⟨List.sorted_insertionSort durLe _, List.perm_insertionSort durLe _, ?_⟩
  cases curve with
  | nil => simp [calculateDrawdownStats] at hs
  | cons p rest =>
      have hrec : recordedPeriods (p :: rest)
          = finalPeriods (ddFold (initialDDState p.equity) (p :: rest)) := rfl
      have hlen : 0 < (recordedPeriods (p :: rest)).length := List.length_pos.mpr hne
      have hstats : stats
          = { maxDrawdownDuration := (ddFold (initialDDState p.equity) (p :: rest)).maxDuration,
              avgDrawdownDuration :=
                if 0 < (recordedPeriods (p :: rest)).length
                then (((recordedPeriods (p :: rest)).map (fun q => (q.duration : ℚ))).sum)
                  / (recordedPeriods (p :: rest)).length else 0,
              medianDrawdownDuration :=
                if 0 < (recordedPeriods (p :: rest)).length
                then ((sortPeriods (recordedPeriods (p :: rest))).getD
                  ((recordedPeriods (p :: rest)).length / 2) dummyPeriod).duration else 0,
              avgDrawdownPercent :=
                if 0 < (recordedPeriods (p :: rest)).length
                then (((recordedPeriods (p :: rest)).map (fun q => q.drawdown)).sum)
                  / (recordedPeriods (p :: rest)).length else 0,
              totalDrawdownPeriods := (recordedPeriods (p :: rest)).length } := by
        exact (Option.some_inj.mp hs).symm
      rw [hstats]
      simp only [if_pos hlen]

/-- Concrete curve producing two completed drawdown periods of durations
0 and 2 days (equities 100, 90, 110, 100, 105, 120 at days 0,1,2,3,5,6). -/
def exCurve7 : List CurvePoint :=
  [ { date := 0, equity := 100, pnl := 0, drawdown := 0 },
    { date := 86400000, equity := 90, pnl := 0, drawdown := 0 },
    { date := 172800000, equity := 110, pnl := 0, drawdown := 0 },
    { date := 259200000, equity := 100, pnl := 0, drawdown := 0 },
    { date := 432000000, equity := 105, pnl := 0, drawdown := 0 },
    { date := 518400000, equity := 120, pnl := 0, drawdown := 0 } ]

/-- C7 as stated is false: `exCurve7` records the (ascending) durations
`[0, 2]` — an even count — and `medianDrawdownDuration` is `2`, the
UPPER-middle element, not the lower-middle `0`. -/
theorem C7_counterexample :
    (calculateDrawdownStats exCurve7).map (fun s => s.medianDrawdownDuration) = some 2
      ∧ (sortPeriods (recordedPeriods exCurve7)).map (fun q => q.duration) = [0, 2]
      ∧ (recordedPeriods exCurve7).length = 2
      ∧ (2 : ℤ) ≠ 0 := by
  refine ⟨?_, ?_, ?_, by norm_num⟩ <;>
    norm_num [calculateDrawdownStats, recordedPeriods, finalPeriods, ddFold, ddStep,
      initialDDState, ceilDays, exCurve7, sortPeriods, List.insertionSort,
      List.orderedInsert, durLe, dummyPeriod]

/-- The stats record `calculateDrawdownStats` yields on `exCurve7`. -/
def exStats7 : DrawdownStats :=
  { maxDrawdownDuration := 2, avgDrawdownDuration := 1, medianDrawdownDuration := 2,
    avgDrawdownPercent := 80 / 11, totalDrawdownPeriods := 2 }

/-- Witness for C7 (amended) at the concrete curve `exCurve7`. -/
theorem C7_median_drawdown_witness :
    calculateDrawdownStats exCurve7 = some exStats7
      ∧ recordedPeriods exCurve7 ≠ []
      ∧ exStats7.medianDrawdownDuration
          = ((sortPeriods (recordedPeriods exCurve7)).getD ((recordedPeriods exCurve7).length / 2)
              dummyPeriod).duration := by
  have hs : calculateDrawdownStats exCurve7 = some exStats7 := by
    norm_num [calculateDrawdownStats, recordedPeriods, finalPeriods, ddFold, ddStep,
      initialDDState, ceilDays, exCurve7, sortPeriods, List.insertionSort,
      List.orderedInsert, durLe, dummyPeriod, exStats7]
  have hne : recordedPeriods exCurve7 ≠ [] := by
    intro h
    rw [show recordedPeriods exCurve7
        = [{ duration := 0, drawdown := 10 }, { duration := 2, drawdown := 50 / 11 }] from by
      norm_num [recordedPeriods, finalPeriods, ddFold, ddStep, initialDDState, ceilDays,
        exCurve7]] at h
    exact List.cons_ne_nil _ _ h
  exact ⟨hs, hne, (C7_median_drawdown exCurve7 exStats7 hs hne).2.2⟩

/-! ### C3: the route on an empty filtered trade set -/

/-- The metadata/response fields of the route relevant to the claims.
The square-root based metrics (`sharpeRatio`, `ulcerIndex`,
`calmarRatio`) and the remaining metadata fields are computed after
`calculateDrawdownStats` (`part_003` line 134) on the non-throwing path
only and are irrational-valued; they are omitted as inert. -/
structure Payload where
  trades : List ProcTrade
  equityCurve : List CurvePoint
  totalTrades : ℕ
  winRate : ℚ
  totalPnL : ℚ
  profitFactor : ℚ
  profitFactor3Month : ℚ
  winRate3Month : ℚ
  maxDrawdownDuration : ℤ
  medianDrawdownDuration : ℤ
  totalDrawdownPeriods : ℕ
deriving DecidableEq

/-- The `GET` handler pipeline (`part_003` lines 22-183): build the
combined sorted trades, the equity curve, the recent metrics (line 131),
then `calculateDrawdownStats` (line 134).  That call is the first
computation that can throw: on an empty curve it reads
`equityCurve[0].equity` of `undefined`, the `catch` branch replies HTTP
500 — modelled as `none`.  (`totalPnL` is accumulated per scaled trade
in the source and equals the sum over the combined trades; `winRate` is
`wins / totalTrades`, evaluated only on the non-throwing path where the
list is non-empty.) -/
def tradesGET (caps : String → ℚ) (data : String → List RawTrade)
    (sd : Option ℤ) (algos : List Algo) : Option Payload :=
  let combined := sortByEntry (combinedTradesOf caps data sd algos)
  let curve := buildCurve (totalInitialCapital caps algos) combined
  let recent := calculateRecentMetrics combined 90
  match calculateDrawdownStats curve with
  | none => none
  | some dd =>
      some
        { trades := combined,
          equityCurve := curve,
          totalTrades := combined.length,
          winRate := ((winningTrades combined).length : ℚ) / combined.length,
          totalPnL := (combined.map (fun t => t.pnl)).sum,
          profitFactor := profitFactorMeta combined,
          profitFactor3Month := recent.1,
          winRate3Month := recent.2,
          maxDrawdownDuration := dd.maxDrawdownDuration,
          medianDrawdownDuration := dd.medianDrawdownDuration,
          totalDrawdownPeriods := dd.totalDrawdownPeriods }

/-- C3 evidence: with a `startDate` excluding every trade of the
selected dataset, the combined list and the curve are empty, so the
route THROWS in `calculateDrawdownStats` and answers the error branch
(HTTP 500) — it does not return the zero-default result the claim
describes. -/
theorem C3_empty_filter_returns_error :
    tradesGET capitalRequirements exData (some 100) [⟨"nq_trades.csv", 1⟩] = none := rfl

/-! ### C8/C9: the cohort re-basing hook (`useCohortData`)

The repository holds two iterations of the hook: the filter-based one
(`src/unnamed/part_015`, modelled as `useCohortDataV1`) and the nested
map-based one (`src/src/hooks/useCohortData.ts` lines 63-116, modelled as
`useCohortDataV2`).  Dates are modelled abstractly as an absolute month
index plus an offset inside the month: `parseISO` comparison is the
lexicographic order, `startOfMonth` zeroes the offset, and
`format(_, "yyyy-MM")` is the month index (for four-digit years the
string comparisons `localeCompare`/`sort()` agree with the month order). -/

/-- Abstract calendar timestamp. -/
structure CalDate where
  month : ℤ
  off : ℤ
deriving DecidableEq

/-- `parseISO(a) <= parseISO(b)` under the abstract calendar. -/
def CalDate.le (a b : CalDate) : Prop :=
  a.month < b.month ∨ (a.month = b.month ∧ a.off ≤ b.off)

instance : DecidableRel CalDate.le :=
  fun a b => inferInstanceAs (Decidable (_ ∨ _))

/-- `startOfMonth`. -/
def startOfMonth (d : CalDate) : CalDate := { month := d.month, off := 0 }

/-- An equity-curve point as consumed by the hook. -/
structure CPoint where
  date : CalDate
  equity : ℚ
  pnl : ℚ
  drawdown : ℚ
deriving DecidableEq

/-- One member record of a cohort (`{tradeNumber, equity, velocity}`). -/
structure CohortEntry where
  tradeNumber : ℕ
  equity : ℚ
  velocity : ℚ
deriving DecidableEq

/-- A `CohortData` value; `startDate` is the `yyyy-MM` key, modelled as
the month index. -/
structure CohortData where
  startDate : ℤ
  data : List CohortEntry
deriving DecidableEq

/-- Chronological order of curve points (the V1 hook sorts the curve by
`parseISO(date).getTime()`). -/
def pointLe (a b : CPoint) : Prop := CalDate.le a.date b.date

instance : DecidableRel pointLe := fun a b => inferInstanceAs (Decidable (CalDate.le _ _))

/-- `[...equityCurve].sort((a, b) => time a - time b)` (part_015 lines
22-24), a stable chronological sort. -/
def sortCurve (c : List CPoint) : List CPoint := List.insertionSort pointLe c

/-- The insertion-ordered set of cohort start months (part_015 lines
27-30: a `Set` of `startOfMonth(point.date)` ISO strings, collected over
the sorted curve). -/
def cohortMonths (sorted : List CPoint) : List ℤ :=
  sorted.foldl (fun acc p => if acc.contains p.date.month then acc else acc ++ [p.date.month]) []

/-- The member points of the cohort starting at month `m`: every sorted
curve point with timestamp at or after the month start (part_015 lines
41-43). -/
def memberPoints (sorted : List CPoint) (m : ℤ) : List CPoint :=
  sorted.filter (fun p => decide (CalDate.le { month := m, off := 0 } p.date))

/-- The `cohortPoints.map` of part_015 lines 46-55: re-index as
`tradeNumber = index + 1`, accumulate `cumulativePnl`, re-base equity,
and set `velocity = point.pnl`. -/
def cohortEntriesGo (initialCapital : ℚ) : ℚ → ℕ → List CPoint → List CohortEntry
  | _, _, [] => []
  | cum, idx, p :: ps =>
      let cum' := cum + p.pnl
      { tradeNumber := idx + 1, equity := initialCapital + cum', velocity := p.pnl }
        :: cohortEntriesGo initialCapital cum' (idx + 1) ps

/-- One cohort of the V1 hook. -/
def cohortFor (initialCapital : ℚ) (sorted : List CPoint) (m : ℤ) : CohortData :=
  { startDate := m, data := cohortEntriesGo initialCapital 0 0 (memberPoints sorted m) }

/-- Display order of the returned cohorts (part_015 line 66:
`sort((a, b) => a.startDate.localeCompare(b.startDate))`). -/
def cohortLe (a b : CohortData) : Prop := a.startDate ≤ b.startDate

instance : DecidableRel cohortLe :=
  fun a b => inferInstanceAs (Decidable (a.startDate ≤ b.startDate))

/-- The filter-based hook (`src/unnamed/part_015`): for each month
present, the cohort holds every point at or after that month's start,
re-based from the initial capital (`equityCurve[0].equity -
equityCurve[0].pnl`). -/
def useCohortDataV1 (curve : List CPoint) : List CohortData × List ℤ :=
  match curve with
  | [] => ([], [])
  | p0 :: _ =>
      let initialCapital := p0.equity - p0.pnl
      let sorted := sortCurve curve
      let starts := cohortMonths sorted
      let cohorts := starts.map (cohortFor initialCapital sorted)
      (List.insertionSort cohortLe cohorts,
       List.insertionSort (fun a b : ℤ => a ≤ b) starts)

/-- Bool form of the abstract date order, for the V2 hook's guards. -/
def dateLeB (a b : CalDate) : Bool := decide (CalDate.le a b)

/-- JS `Map.get` on the insertion-ordered cohort map keyed by
`startDate`. -/
def mapFind (l : List CohortData) (k : ℤ) : Option CohortData :=
  l.find? (fun c => c.startDate == k)

/-- Push an entry onto the cohort stored under key `k` (in-place `push`
on the map value). -/
def mapPush (l : List CohortData) (k : ℤ) (e : CohortEntry) : List CohortData :=
  l.map (fun c => if c.startDate == k then { c with data := c.data ++ [e] } else c)

/-- The body of the INNER `forEach` of `useCohortData.ts` lines 74-108,
for outer point `p` and inner point `q`: when `q.date ≥ p.date` the
cohort keyed by `q`'s month is created if absent; then, if `p.date` is
at or after that cohort's month start, `p` is pushed with
`tradeNumber = data.length + 1` and `velocity = p.equity - prevEquity`
(`prevEquity` defaulting to `p.equity` when the cohort is empty). -/
def v2Step (p : CPoint) (acc : List CohortData) (q : CPoint) : List CohortData :=
  if dateLeB p.date q.date then
    let key := q.date.month
    let acc1 :=
      if (mapFind acc key).isSome then acc
      else acc ++ [{ startDate := key, data := [] }]
    if dateLeB (startOfMonth q.date) p.date then
      let cur := (mapFind acc1 key).getD { startDate := key, data := [] }
      let prevEquity := ((cur.data.getLast?).map (fun e => e.equity)).getD p.equity
      mapPush acc1 key
        { tradeNumber := cur.data.length + 1, equity := p.equity,
          velocity := p.equity - prevEquity }
    else acc1
  else acc

/-- The nested map-based hook (`src/src/hooks/useCohortData.ts` lines
63-116): cohorts are `Array.from(cohortsMap.values())` in insertion
order, `uniqueCohorts` the sorted key set. -/
def useCohortDataV2 (curve : List CPoint) : List CohortData × List ℤ :=
  let cohorts := curve.foldl (fun acc p => curve.foldl (v2Step p) acc) []
  (cohorts, List.insertionSort (fun a b : ℤ => a ≤ b) (cohorts.map (fun c => c.startDate)))

/-- The dates of the points pushed into the V2 cohort keyed by month
`m`, in push order: the guard chain is exactly the source's condition
for `cohortData.data.push` (the push itself never depends on the
accumulated map, so the pushed dates are determined by the two date
guards and the key). -/
def v2MemberDates (curve : List CPoint) (m : ℤ) : List CalDate :=
  curve.foldl
    (fun ds p =>
      curve.foldl
        (fun ds' q =>
          if dateLeB p.date q.date && (q.date.month == m)
              && dateLeB (startOfMonth q.date) p.date
          then ds' ++ [p.date] else ds') ds)
    []

/-- Two-point curve spanning two months (months 0 and 1). -/
def exCurveC8 : List CPoint :=
  [ { date := { month := 0, off := 0 }, equity := 100, pnl := 10, drawdown := 0 },
    { date := { month := 1, off := 0 }, equity := 110, pnl := 10, drawdown := 0 } ]

/-- C8 as stated is false on the `useCohortData.ts` revision: months 0
and 1 are both present, yet the cohort for month 0 holds only the
month-0 point — the month-1 member (timestamp `(1,0)`) is not a member
of the earlier cohort, so cohort `M` is not a superset of cohort `M+1`. -/
theorem C8_counterexample :
    (useCohortDataV2 exCurveC8).1
        = [ { startDate := 0, data := [{ tradeNumber := 1, equity := 100, velocity := 0 }] },
            { startDate := 1, data := [{ tradeNumber := 1, equity := 110, velocity := 0 }] } ]
      ∧ v2MemberDates exCurveC8 0 = [{ month := 0, off := 0 }]
      ∧ v2MemberDates exCurveC8 1 = [{ month := 1, off := 0 }]
      ∧ ¬ (({ month := 1, off := 0 } : CalDate) ∈ v2MemberDates exCurveC8 0) := by
  refine ⟨?_, by rfl, by rfl, by decide⟩
  have h : (useCohortDataV2 exCurveC8).1
      = [ { startDate := 0,
            data := [{ tradeNumber := 1, equity := 100, velocity := 100 - 100 }] },
          { startDate := 1,
            data := [{ tradeNumber := 1, equity := 110, velocity := 110 - 110 }] } ] := rfl
  rw [h]
  norm_num

/-- Month presence transfers along the sorting permutation. -/
theorem mem_sortCurve (curve : List CPoint) (p : CPoint) (hp : p ∈ curve) :
    p ∈ sortCurve curve :=
  (List.perm_insertionSort pointLe curve).symm.subset hp

/-- One step of the `cohortStarts` fold: membership in the updated
accumulator. -/
theorem mem_cohortMonths_step (acc : List ℤ) (p : CPoint) (m : ℤ) :
    m ∈ (if acc.contains p.date.month then acc else acc ++ [p.date.month])
      ↔ m ∈ acc ∨ p.date.month = m := by
  by_cases hc : acc.contains p.date.month
  · rw [if_pos hc]
    constructor
    · exact Or.inl
    · rintro (h | h)
      · exact h
      · rw [← h]
        exact List.mem_of_elem_eq_true hc
  · rw [if_neg hc]
    rw [List.mem_append, List.mem_singleton]
    constructor
    · rintro (h | h)
      · exact Or.inl h
      · exact Or.inr h.symm
    · rintro (h | h)
      · exact Or.inl h
      · exact Or.inr h.symm

/-- A month occurs in `cohortMonths` exactly when some point of the list
carries it. -/
theorem mem_cohortMonths_aux (m : ℤ) :
    ∀ (l : List CPoint) (acc : List ℤ),
      m ∈ l.foldl (fun acc p => if acc.contains p.date.month then acc else acc ++ [p.date.month]) acc
        ↔ m ∈ acc ∨ ∃ p ∈ l, p.date.month = m := by
  intro l
  induction l with
  | nil => intro acc; simp
  | cons p l ih =>
      intro acc
      rw [List.foldl_cons, ih, mem_cohortMonths_step]
      constructor
      · rintro ((h | h) | ⟨q, hq, hqm⟩)
        · exact Or.inl h
        · exact Or.inr ⟨p, List.mem_cons_self _ _, h⟩
        · exact Or.inr ⟨q, List.mem_cons_of_mem _ hq, hqm⟩
      · rintro (h | ⟨q, hq, hqm⟩)
        · exact Or.inl (Or.inl h)
        · rcases List.mem_cons.mp hq with h | h
          · exact Or.inl (Or.inr (h ▸ hqm))
          · exact Or.inr ⟨q, h, hqm⟩

theorem mem_cohortMonths (m : ℤ) (sorted : List CPoint) :
    m ∈ cohortMonths sorted ↔ ∃ p ∈ sorted, p.date.month = m := by
  unfold cohortMonths
  rw [mem_cohortMonths_aux]
  simp

theorem cohortEntriesGo_length (initialCapital : ℚ) :
    ∀ (cum : ℚ) (idx : ℕ) (ps : List CPoint),
      (cohortEntriesGo initialCapital cum idx ps).length = ps.length := by
  intro cum idx ps
  induction ps generalizing cum idx with
  | nil => rfl
  | cons p ps ih => simp [cohortEntriesGo, ih]

/-- The cohort for a present month exists in the V1 output, with one
entry per member point. -/
theorem cohort_exists_V1 (p0 : CPoint) (rest : List CPoint) (m : ℤ)
    (hm : ∃ p ∈ p0 :: rest, p.date.month = m) :
    ∃ c ∈ (useCohortDataV1 (p0 :: rest)).1, c.startDate = m
      ∧ c.data.length = (memberPoints (sortCurve (p0 :: rest)) m).length := by
  obtain ⟨p, hp, hpm⟩ := hm
  have hmem : m ∈ cohortMonths (sortCurve (p0 :: rest)) :=
    (mem_cohortMonths m _).mpr ⟨p, mem_sortCurve _ p hp, hpm⟩
  refine ⟨cohortFor (p0.equity - p0.pnl) (sortCurve (p0 :: rest)) m, ?_, rfl, ?_⟩
  · have hin : cohortFor (p0.equity - p0.pnl) (sortCurve (p0 :: rest)) m
        ∈ (cohortMonths (sortCurve (p0 :: rest))).map
            (cohortFor (p0.equity - p0.pnl) (sortCurve (p0 :: rest))) :=
      List.mem_map_of_mem _ hmem
    exact (List.perm_insertionSort cohortLe _).symm.subset hin
  · exact cohortEntriesGo_length _ 0 0 _

/-- C8 (amended): the hook is a pure function of the curve, so
recomputation yields identical output; and in the FILTER-BASED iteration
(part_015) a cohort's member set is every point at or after the month
start, hence the cohort of month `M` is a superset (by membership of the
curve points, in particular by timestamp) of the cohort of month `M+1`,
and both cohorts exist with one entry per member point.  (The nested
revision of `useCohortData.ts` violates the superset property, see the
counterexample.) -/
theorem C8_cohort_superset (p0 : CPoint) (rest : List CPoint) (M : ℤ)
    (hM : ∃ p ∈ p0 :: rest, p.date.month = M)
    (hM1 : ∃ p ∈ p0 :: rest, p.date.month = M + 1) :
    useCohortDataV1 (p0 :: rest) = useCohortDataV1 (p0 :: rest)
      ∧ (∀ p, p ∈ memberPoints (sortCurve (p0 :: rest)) (M + 1)
          → p ∈ memberPoints (sortCurve (p0 :: rest)) M)
      ∧ (∃ c ∈ (useCohortDataV1 (p0 :: rest)).1, c.startDate = M
          ∧ c.data.length = (memberPoints (sortCurve (p0 :: rest)) M).length)
      ∧ (∃ c ∈ (useCohortDataV1 (p0 :: rest)).1, c.startDate = M + 1
          ∧ c.data.length = (memberPoints (sortCurve (p0 :: rest)) (M + 1)).length) := by
  refine ⟨rfl, ?_, cohort_exists_V1 p0 rest M hM, cohort_exists_V1 p0 rest (M + 1) hM1⟩
  intro p hp
  have h := List.mem_filter.mp hp
  apply List.mem_filter.mpr
  refine ⟨h.1, ?_⟩
  apply decide_eq_true
  have hle : CalDate.le { month := M + 1, off := 0 } p.date := of_decide_eq_true h.2
  have hlt : M < p.date.month := by
    rcases hle with h' | h'
    · have h'' : M + 1 < p.date.month := h'
      omega
    · have h'' : M + 1 = p.date.month := h'.1
      omega
  exact Or.inl hlt

/-- Witness for C8 (amended) at the concrete two-month curve. -/
theorem C8_cohort_superset_witness :
    (∃ p ∈ exCurveC8, p.date.month = 0) ∧ (∃ p ∈ exCurveC8, p.date.month = 0 + 1)
      ∧ ((∀ p, p ∈ memberPoints (sortCurve exCurveC8) (0 + 1)
            → p ∈ memberPoints (sortCurve exCurveC8) 0)
        ∧ (∃ c ∈ (useCohortDataV1 exCurveC8).1, c.startDate = 0
            ∧ c.data.length = (memberPoints (sortCurve exCurveC8) 0).length)
        ∧ (∃ c ∈ (useCohortDataV1 exCurveC8).1, c.startDate = 0 + 1
            ∧ c.data.length = (memberPoints (sortCurve exCurveC8) (0 + 1)).length)) := by
  have h0 : ∃ p ∈ exCurveC8, p.date.month = 0 :=
    ⟨{ date := { month := 0, off := 0 }, equity := 100, pnl := 10, drawdown := 0 },
      List.mem_cons_self _ _, rfl⟩
  have h1 : ∃ p ∈ exCurveC8, p.date.month = 0 + 1 :=
    ⟨{ date := { month := 1, off := 0 }, equity := 110, pnl := 10, drawdown := 0 },
      List.mem_cons_of_mem _ (List.mem_cons_self _ _), rfl⟩
  have h := C8_cohort_superset
    { date := { month := 0, off := 0 }, equity := 100, pnl := 10, drawdown := 0 }
    [{ date := { month := 1, off := 0 }, equity := 110, pnl := 10, drawdown := 0 }]
    0 h0 h1
  exact ⟨h0, h1, h.2⟩

theorem cohortEntriesGo_velocity (initialCapital : ℚ) :
    ∀ (cum : ℚ) (idx : ℕ) (ps : List CPoint),
      (cohortEntriesGo initialCapital cum idx ps).map (fun e => e.velocity)
        = ps.map (fun p => p.pnl) := by
  intro cum idx ps
  induction ps generalizing cum idx with
  | nil => rfl
  | cons p ps ih => simp [cohortEntriesGo, ih]

theorem cohortEntriesGo_tradeNumber (initialCapital : ℚ) :
    ∀ (ps : List CPoint) (cum : ℚ) (idx : ℕ) (i : ℕ)
      (hi : i < (cohortEntriesGo initialCapital cum idx ps).length),
      ((cohortEntriesGo initialCapital cum idx ps).get ⟨i, hi⟩).tradeNumber = idx + i + 1 := by
  intro ps
  induction ps with
  | nil => intro cum idx i hi; simp [cohortEntriesGo] at hi
  | cons p ps ih =>
      intro cum idx i hi
      cases i with
      | zero => rfl
      | succ j =>
          have hj : j < (cohortEntriesGo initialCapital (cum + p.pnl) (idx + 1) ps).length := by
            simpa [cohortEntriesGo] using hi
          have := ih (cum + p.pnl) (idx + 1) j hj
          simpa [cohortEntriesGo, Nat.add_assoc, Nat.add_comm, Nat.add_left_comm] using this

/-- C9 (amended): in the filter-based iteration (part_015), every cohort
member's `tradeNumber` is its 1-based position within the cohort (not
its global curve index) and its `velocity` is that member point's
blended pnl — including the first point of the cohort.  (In the
`useCohortData.ts` revision the first member's velocity is `0`, see the
counterexample.) -/
theorem C9_cohort_velocity (curve : List CPoint) (c : CohortData)
    (hc : c ∈ (useCohortDataV1 curve).1) :
    c.data.map (fun e => e.velocity)
        = (memberPoints (sortCurve curve) c.startDate).map (fun p => p.pnl)
      ∧ ∀ (i : ℕ) (hi : i < c.data.length), (c.data.get ⟨i, hi⟩).tradeNumber = i + 1 := by
  cases curve with
  | nil => simp [useCohortDataV1] at hc
  | cons p0 rest =>
      have hc' : c ∈ (cohortMonths (sortCurve (p0 :: rest))).map
          (cohortFor (p0.equity - p0.pnl) (sortCurve (p0 :: rest))) :=
        (List.perm_insertionSort cohortLe _).subset hc
      obtain ⟨m, _, hcm⟩ := List.mem_map.mp hc'
      rw [← hcm]
      constructor
      · exact cohortEntriesGo_velocity _ 0 0 _
      · intro i hi
        have := cohortEntriesGo_tradeNumber (p0.equity - p0.pnl)
          (memberPoints (sortCurve (p0 :: rest)) m) 0 0 i hi
        simpa using this

/-- Single-point curve for the C9 counterexample. -/
def exCurveC9 : List CPoint :=
  [ { date := { month := 0, off := 0 }, equity := 100, pnl := 10, drawdown := 0 } ]

/-- C9 as stated is false on the `useCohortData.ts` revision: the first
(and only) member of the single cohort has `velocity = 0` (the previous
equity defaults to the point's own), not the point's pnl `10`. -/
theorem C9_counterexample :
    (useCohortDataV2 exCurveC9).1
        = [ { startDate := 0, data := [{ tradeNumber := 1, equity := 100, velocity := 0 }] } ]
      ∧ ({ date := { month := 0, off := 0 }, equity := 100, pnl := 10, drawdown := 0 }
          : CPoint).pnl = 10
      ∧ (0 : ℚ) ≠ 10 := by
  refine ⟨?_, rfl, by norm_num⟩
  have h : (useCohortDataV2 exCurveC9).1
      = [ { startDate := 0,
            data := [{ tradeNumber := 1, equity := 100, velocity := 100 - 100 }] } ] := rfl
  rw [h]
  norm_num

/-- The month-1 cohort of the V1 hook on the two-month curve. -/
def exCohortC9 : CohortData :=
  { startDate := 1, data := [{ tradeNumber := 1, equity := 100, velocity := 10 }] }

/-- Witness for C9 (amended) at a concrete curve: the month-1 cohort's
sole member has `tradeNumber = 1` and `velocity = 10`, its pnl. -/
theorem C9_cohort_velocity_witness :
    exCohortC9 ∈ (useCohortDataV1 exCurveC8).1
      ∧ exCohortC9.data.map (fun e => e.velocity)
          = (memberPoints (sortCurve exCurveC8) exCohortC9.startDate).map (fun p => p.pnl)
      ∧ ∀ (i : ℕ) (hi : i < exCohortC9.data.length),
          (exCohortC9.data.get ⟨i, hi⟩).tradeNumber = i + 1 := by
  have hc : exCohortC9 ∈ (useCohortDataV1 exCurveC8).1 := by
    have h : (useCohortDataV1 exCurveC8).1
        = [ { startDate := 0,
              data := [ { tradeNumber := 1, equity := 100 - 10 + (0 + 10), velocity := 10 },
                        { tradeNumber := 2, equity := 100 - 10 + (0 + 10 + 10), velocity := 10 } ] },
            { startDate := 1,
              data := [ { tradeNumber := 1, equity := 100 - 10 + (0 + 10), velocity := 10 } ] } ]
        := rfl
    have h2 : (useCohortDataV1 exCurveC8).1
        = [ { startDate := 0,
              data := [ { tradeNumber := 1, equity := 100, velocity := 10 },
                        { tradeNumber := 2, equity := 110, velocity := 10 } ] },
            exCohortC9 ] := by
      rw [h]
      norm_num [exCohortC9]
    rw [h2]
    exact List.mem_cons_of_mem _ (List.mem_cons_self _ _)
  have h := C9_cohort_velocity exCurveC8 exCohortC9 hc
  exact ⟨hc, h.1, h.2⟩

/-! ### C10: the audit text parser (`parseAuditedTradeData`, part_017) -/

/-- `String.prototype.split` on a character class: split the character
list at every character satisfying `p` (JS `split` on a single-char
separator / on `/\s+/` followed by `filter(Boolean)` — empty groups are
kept here and dropped by the caller exactly as `filter(Boolean)` does). -/
def splitOnPred (p : Char → Bool) : List Char → List (List Char)
  | [] => [[]]
  | x :: xs =>
      if p x then [] :: splitOnPred p xs
      else
        match splitOnPred p xs with
        | [] => [[x]]
        | g :: gs => (x :: g) :: gs

/-- `text.split('\n')`. -/
def auditLines (text : String) : List String :=
  (splitOnPred (fun c => c == '\n') text.data).map (fun cs => String.mk cs)

/-- `line.trim().split(/\s+/).filter(Boolean)`: splitting on every
whitespace character and dropping empty groups is exactly splitting on
whitespace runs of the trimmed line. -/
def tokensOf (line : String) : List String :=
  ((splitOnPred (fun c => c.isWhitespace) line.data).map (fun cs => String.mk cs)).filter
    (fun s => !s.isEmpty)

/-- Drop the first occurrence of `c` (JS `replace('$','')` replaces only
the first match of a string pattern). -/
def removeFirst (c : Char) : List Char → List Char
  | [] => []
  | x :: xs => if x = c then xs else x :: removeFirst c xs

/-- `.replace('$', '').replace(',', '')`. -/
def stripMoney (s : String) : String := String.mk (removeFirst ',' (removeFirst '$' s.data))

/-- `.replace('%', '')`. -/
def stripPercent (s : String) : String := String.mk (removeFirst '%' s.data)

/-- Numeric value of a digit run. -/
def digitsVal (ds : List Char) : ℕ := ds.foldl (fun n c => 10 * n + (c.toNat - 48)) 0

/-- JS `parseFloat`: optional sign, then the longest `digits[.digits]`
prefix; trailing junk is ignored; `none` models `NaN` (no digits at
all).  `parseFloat` never throws.  (Exponent notation does not occur in
the audit tokens and is not modelled.) -/
def jsParseFloat (s : String) : Option ℚ :=
  let cs := s.data.dropWhile (fun c => c.isWhitespace)
  let signAndRest : ℚ × List Char :=
    match cs with
    | '-' :: rest => (-1, rest)
    | '+' :: rest => (1, rest)
    | _ => (1, cs)
  let intPart := signAndRest.2.takeWhile (fun c => c.isDigit)
  let afterInt := signAndRest.2.dropWhile (fun c => c.isDigit)
  let fracPart :=
    match afterInt with
    | '.' :: r => r.takeWhile (fun c => c.isDigit)
    | _ => []
  if intPart.isEmpty && fracPart.isEmpty then none
  else some (signAndRest.1
    * ((digitsVal intPart : ℚ) + (digitsVal fracPart : ℚ) / (10 : ℚ) ^ fracPart.length))

/-- JS `parseInt(s, 10)`: optional sign then the longest digit prefix;
`none` models `NaN`.  `parseInt` never throws. -/
def jsParseInt (s : String) : Option ℤ :=
  let cs := s.data.dropWhile (fun c => c.isWhitespace)
  let signAndRest : ℤ × List Char :=
    match cs with
    | '-' :: rest => (-1, rest)
    | '+' :: rest => (1, rest)
    | _ => (1, cs)
  let digits := signAndRest.2.takeWhile (fun c => c.isDigit)
  if digits.isEmpty then none else some (signAndRest.1 * digitsVal digits)

/-- The parsed audit record (part_017 lines 1-18).  `date` keeps the raw
token (`new Date(token)` never throws; an unparseable date is the
`Invalid Date` value).  `price`/`contracts` hold `none` for `NaN`.
Optional fields are doubly optional: outer `none` means the field was
left `undefined` (token absent), the inner value is the parse result. -/
structure AuditedTrade where
  algorithm : String
  symbol : String
  type : String
  signal : String
  date : String
  time : String
  price : Option ℚ
  contracts : Option ℤ
  profit : Option (Option ℚ)
  profitPct : Option (Option ℚ)
  cumProfit : Option (Option ℚ)
  cumProfitPct : Option (Option ℚ)
  backtestingProfit : Option (Option ℚ)
  slippage : Option (Option ℚ)
  slippagePerContract : Option (Option ℚ)
  totalContracts : Option (Option ℤ)
deriving DecidableEq

/-- One line of the parser loop (part_017 lines 27-60): fewer than 8
tokens → skip; otherwise build the record positionally.  `if (parts[i])`
is truthy exactly when token `i` exists (tokens are non-empty strings).
Nothing in the `try` body can throw (`new Date`, `parseFloat`,
`parseInt` return error VALUES), so the `catch` is dead code and the
function is total. -/
def parseLine (algorithm line : String) : Option AuditedTrade :=
  let parts := tokensOf line
  if parts.length < 8 then none
  else some
    { algorithm := algorithm,
      symbol := parts.getD 1 "",
      type := parts.getD 2 "",
      signal := parts.getD 3 "",
      date := parts.getD 4 "",
      time := parts.getD 5 "",
      price := jsParseFloat (stripMoney (parts.getD 6 "")),
      contracts := jsParseInt (parts.getD 7 ""),
      profit := (parts.get? 8).map (fun s => jsParseFloat (stripMoney s)),
      profitPct := (parts.get? 9).map (fun s => jsParseFloat (stripPercent s)),
      cumProfit := (parts.get? 10).map (fun s => jsParseFloat (stripMoney s)),
      cumProfitPct := (parts.get? 11).map (fun s => jsParseFloat (stripPercent s)),
      backtestingProfit := (parts.get? 12).map (fun s => jsParseFloat (stripMoney s)),
      slippage := (parts.get? 13).map (fun s => jsParseFloat (stripMoney s)),
      slippagePerContract := (parts.get? 14).map (fun s => jsParseFloat (stripMoney s)),
      totalContracts := (parts.get? 15).map jsParseInt }

/-- `parseAuditedTradeData` (part_017 lines 20-63): drop the first two
lines, tokenize each remaining line, skip short lines, push the rest. -/
def parseAuditedTradeData (text algorithm : String) : List AuditedTrade :=
  ((auditLines text).drop 2).filterMap (parseLine algorithm)

theorem length_filterMap_eq_countP {α β : Type} (f : α → Option β) :
    ∀ (l : List α), (l.filterMap f).length = l.countP (fun a => (f a).isSome) := by
  intro l
  induction l with
  | nil => rfl
  | cons a l ih =>
      cases h : f a with
      | none => simp [List.filterMap_cons, h, List.countP_cons, ih]
      | some b => simp [List.filterMap_cons, h, List.countP_cons, ih]

theorem parseLine_isSome (algorithm line : String) :
    (parseLine algorithm line).isSome = decide (8 ≤ (tokensOf line).length) := by
  unfold parseLine
  by_cases h : (tokensOf line).length < 8
  · rw [if_pos h]
    simp [Nat.not_le.mpr h]
  · rw [if_neg h]
    simp [Nat.le_of_not_lt h]

/-- C10: the parser discards the first two lines; a remaining line with
exactly 8 whitespace tokens yields one record with every optional field
`undefined`; a line with fewer than 8 tokens yields no record (and the
parser is a total function — no exception aborts the batch: the output
has exactly one record per remaining line with at least 8 tokens). -/
theorem C10_audit_parsing (text algorithm line : String)
    (hline : line ∈ (auditLines text).drop 2) :
    ((tokensOf line).length = 8 →
      ∃ t, parseLine algorithm line = some t
        ∧ t.profit = none ∧ t.profitPct = none ∧ t.cumProfit = none ∧ t.cumProfitPct = none
        ∧ t.backtestingProfit = none ∧ t.slippage = none ∧ t.slippagePerContract = none
        ∧ t.totalContracts = none)
      ∧ ((tokensOf line).length < 8 → parseLine algorithm line = none)
      ∧ (parseAuditedTradeData text algorithm).length
          = ((auditLines text).drop 2).countP (fun l => decide (8 ≤ (tokensOf l).length)) := by
  refine ⟨?_, ?_, ?_⟩
  · intro h8
    have hnone : ∀ (i : ℕ), 8 ≤ i → (tokensOf line).get? i = none := by
      intro i hi
      apply List.get?_eq_none.mpr
      omega
    refine ⟨{ algorithm := algorithm,
              symbol := (tokensOf line).getD 1 "",
              type := (tokensOf line).getD 2 "",
              signal := (tokensOf line).getD 3 "",
              date := (tokensOf line).getD 4 "",
              time := (tokensOf line).getD 5 "",
              price := jsParseFloat (stripMoney ((tokensOf line).getD 6 "")),
              contracts := jsParseInt ((tokensOf line).getD 7 ""),
              profit := none, profitPct := none, cumProfit := none, cumProfitPct := none,
              backtestingProfit := none, slippage := none, slippagePerContract := none,
              totalContracts := none }, ?_, rfl, rfl, rfl, rfl, rfl, rfl, rfl, rfl⟩
    unfold parseLine
    rw [if_neg (by omega)]
    simp only [hnone 8 (by omega), hnone 9 (by omega), hnone 10 (by omega),
      hnone 11 (by omega), hnone 12 (by omega), hnone 13 (by omega),
      hnone 14 (by omega), hnone 15 (by omega), Option.map_none']
  · intro h8
    unfold parseLine
    rw [if_pos h8]
  · unfold parseAuditedTradeData
    rw [length_filterMap_eq_countP]
    apply List.countP_congr
    intro l _
    rw [parseLine_isSome algorithm l]

/-- Concrete OCR block for the C10 witness: two header lines, one
complete 8-token row, one short row. -/
def exAuditText : String :=
  "Trades Table\nAlg Sym Type Sig Date Time Price Qty\n1 NQ Long Buy 2024-01-02 10:00 $1,234.5 2\n7 NQ Long"

/-- Witness for C10 at the concrete block: the 8-token row is inside the
remaining lines, yields a record with all optional fields `undefined`,
the 3-token row yields none, and the batch has exactly one record. -/
theorem C10_audit_parsing_witness :
    ("1 NQ Long Buy 2024-01-02 10:00 $1,234.5 2" ∈ (auditLines exAuditText).drop 2)
      ∧ (tokensOf "1 NQ Long Buy 2024-01-02 10:00 $1,234.5 2").length = 8
      ∧ (∃ t, parseLine "atlas" "1 NQ Long Buy 2024-01-02 10:00 $1,234.5 2" = some t
          ∧ t.profit = none ∧ t.profitPct = none ∧ t.cumProfit = none ∧ t.cumProfitPct = none
          ∧ t.backtestingProfit = none ∧ t.slippage = none ∧ t.slippagePerContract = none
          ∧ t.totalContracts = none)
      ∧ (parseAuditedTradeData exAuditText "atlas").length
          = ((auditLines exAuditText).drop 2).countP
              (fun l => decide (8 ≤ (tokensOf l).length)) := by
  have hline : "1 NQ Long Buy 2024-01-02 10:00 $1,234.5 2" ∈ (auditLines exAuditText).drop 2 := by
    decide
  have h8 : (tokensOf "1 NQ Long Buy 2024-01-02 10:00 $1,234.5 2").length = 8 := by
    decide
  have h := C10_audit_parsing exAuditText "atlas" "1 NQ Long Buy 2024-01-02 10:00 $1,234.5 2" hline
  exact ⟨hline, h8, h.1 h8, h.2.2⟩

end TradePerf
